import Mathlib

/-!
Shallow embedding of the terminology-controlled translation core of the
GhanaNLP nkrane-gt repository: `tc_translate/terminology_manager.py`,
`tc_translate/translator.py` and `tc-translator/glossary_manager.py`.

Modelling conventions:
* Python strings are modelled as Lean `String` / `List Char`; the character
  class used by the regex metacharacters (`\b`, `re.IGNORECASE`) is the ASCII
  range, which covers every input appearing in the development.  Python
  Unicode-aware case folding and word classes agree with the ASCII model on
  ASCII text.
* `re.sub` with pattern `\b re.escape(term) \b` and `re.IGNORECASE` is modelled
  by an explicit left-to-right scanner (`subAux`) that replaces each
  non-overlapping leftmost match and also reports whether any match occurred
  (in the source the same information flows through the `replace_with_placeholder`
  callback mutating the `replacements` dict).
* Fallible Python code (`raise ValueError`, `KeyError`, `pd.read_csv` failures)
  is modelled with `Except String`.
* Term ids are modelled as `Nat` (every id appearing in the repository term
  tables is a non-negative integer); the Python f-string placeholder, angle brackets around the decimal id,
  becomes a character list, bracket then digits then bracket.
-/

/-- Word-constituent character: the ASCII part of the regex `\w` class used by
Python `\b` word-boundary assertion (letters, digits, underscore). -/
def isWordChar (c : Char) : Bool :=
  (97 ≤ c.toNat && c.toNat ≤ 122) || (65 ≤ c.toNat && c.toNat ≤ 90) ||
    (48 ≤ c.toNat && c.toNat ≤ 57) || c.toNat == 95

/-- Decimal digit character ('0'-'9'). -/
def isDigitChar (c : Char) : Bool :=
  48 ≤ c.toNat && c.toNat ≤ 57

/-- Python whitespace characters stripped by `str.strip()` (ASCII range):
space, tab, newline, vertical tab, form feed, carriage return. -/
def isSpaceChar (c : Char) : Bool :=
  c.toNat == 32 || (9 ≤ c.toNat && c.toNat ≤ 13)

/-- ASCII lower-casing of one character, as performed by `str.lower()` and by
`re.IGNORECASE` matching on ASCII text. -/
def lowerChar (c : Char) : Char :=
  if 65 ≤ c.toNat && c.toNat ≤ 90 then Char.ofNat (c.toNat + 32) else c

/-- Case-insensitive character comparison used by `re.IGNORECASE`. -/
def ciEq (a b : Char) : Bool :=
  lowerChar a == lowerChar b

/-- Case-insensitive test that `term` occurs at the front of `s`
(the literal-pattern part of the compiled regex matching at one position). -/
def ciStarts : List Char → List Char → Bool
  | [], _ => true
  | _ :: _, [] => false
  | a :: as, b :: bs => ciEq a b && ciStarts as bs

/-- Word-ness of an optional character; positions before the start and after the
end of the subject string count as non-word, as in Python `\b`. -/
def wordOpt : Option Char → Bool
  | none => false
  | some c => isWordChar c

/-- Python `\b` assertion between two adjacent positions: it holds when
exactly one side is a word-constituent character. -/
def boundaryB (l r : Option Char) : Bool :=
  wordOpt l != wordOpt r

/-- Whether the compiled pattern `\b re.escape(term) \b` (with `re.IGNORECASE`)
matches at the current scan position, where `prev` is the character just before
the position and `s` is the remaining subject text.  Terms in the repository
tables are non-empty; the empty term is excluded here. -/
def termMatchesAt (prev : Option Char) (s term : List Char) : Bool :=
  !term.isEmpty && ciStarts term s && boundaryB prev s.head? &&
    boundaryB (List.take term.length s).getLast? (List.drop term.length s).head?

/-- Left-to-right scan of `pattern.sub(replace_with_placeholder, text)`: at each
position, if the term matches, emit the placeholder and skip the matched span,
else emit the character.  Returns the rewritten text and whether any match
occurred (the source records the latter through the callback writing into the
`replacements` dict).  The fuel argument dominates the subject length; each
step consumes at least one subject character so `fuel = s.length` suffices. -/
def subAux (term ph : List Char) : Nat → Option Char → List Char → List Char × Bool
  | _, _, [] => ([], false)
  | 0, _, s => (s, false)
  | fuel + 1, prev, c :: rest =>
    if termMatchesAt prev (c :: rest) term then
      let r := subAux term ph fuel (List.take term.length (c :: rest)).getLast?
        (List.drop term.length (c :: rest))
      (ph ++ r.1, true)
    else
      let r := subAux term ph fuel (some c) rest
      (c :: r.1, r.2)

/-- One whole substitution pass of a term over a text. -/
def runSub (term ph s : List Char) : List Char × Bool :=
  subAux term ph s.length none s

/-- Decimal digit character of `n % 10`, as produced by Python `str(int)`. -/
def digitChar (n : Nat) : Char :=
  Char.ofNat (48 + n % 10)

/-- Fuelled decimal rendering helper. -/
def natDigitsAux : Nat → Nat → List Char
  | 0, _ => []
  | f + 1, n => if n < 10 then [digitChar n] else natDigitsAux f (n / 10) ++ [digitChar (n % 10)]

/-- Decimal digits of a natural number, most significant first
(Python `str(id)` for the non-negative ids in the term tables). -/
def natDigits (n : Nat) : List Char :=
  natDigitsAux (n + 1) n

/-- Characters of the placeholder token built in
`TerminologyManager.preprocess_text`: an opening angle bracket, the decimal
digits of the id, a closing angle bracket. -/
def phChars (id : Nat) : List Char :=
  '<' :: natDigits id ++ ['>']

/-- Placeholder token as a string. -/
def placeholderStr (id : Nat) : String :=
  String.mk (phChars id)

/-- Strip leading and trailing Python whitespace (`str.strip()`). -/
def stripChars (s : List Char) : List Char :=
  ((s.dropWhile isSpaceChar).reverse.dropWhile isSpaceChar).reverse

/-- Python `str.strip()` on strings. -/
def pyStrip (s : String) : String :=
  String.mk (stripChars s.data)

/-- Python `str.lower()` on strings (ASCII case folding). -/
def pyLower (s : String) : String :=
  String.mk (s.data.map lowerChar)

/-- Record type of `tc_translate.terminology_manager.Term` (the `@dataclass`).
The `id` field is modelled as `Nat`; see the header comment. -/
structure Term where
  id : Nat
  term : String
  translation : String
  domain : String
  language : String
deriving DecidableEq, Repr

/-- Stable insertion of a term into a list already sorted by surface-string
length descending: used to model Python stable
`sorted` over the dict values keyed by term length, reversed. -/
def insertByLen (t : Term) : List Term → List Term
  | [] => [t]
  | u :: us => if t.term.length < u.term.length then u :: insertByLen t us else t :: u :: us

/-- Sort terms by surface-string length, longest first, stably (ties keep the
original dict-insertion order), as `sorted(..., key=len, reverse=True)` does. -/
def sortLenDesc : List Term → List Term
  | [] => []
  | t :: ts => insertByLen t (sortLenDesc ts)

/-- Python dict update `replacements[placeholder] = term_obj`: overwrite in
place if the key is present, else append. -/
def insertReplacement (k : String) (t : Term) : List (String × Term) → List (String × Term)
  | [] => [(k, t)]
  | (k', t') :: rest =>
    if k' = k then (k', t) :: rest else (k', t') :: insertReplacement k t rest

/-- One iteration of the `for term_obj in sorted_terms` loop of
`preprocess_text`: substitute the term, and record the placeholder in the
replacements dict exactly when at least one match occurred. -/
def passStep (acc : List Char × List (String × Term)) (t : Term) :
    List Char × List (String × Term) :=
  let r := subAux t.term.data (phChars t.id) acc.1.length none acc.1
  (r.1, if r.2 then insertReplacement (placeholderStr t.id) t acc.2 else acc.2)

/-- The substitution loop of `TerminologyManager.preprocess_text` applied to a
term table (the values of `terms_dict` in insertion order). -/
def runPasses (table : List Term) (text : String) : String × List (String × Term) :=
  let folded := (sortLenDesc table).foldl passStep (text.data, [])
  (String.mk folded.1, folded.2)

/-- Exact (case-sensitive) test that `pat` occurs at the front of `s`; the
matching primitive of Python literal `str.replace`. -/
def listStarts : List Char → List Char → Bool
  | [], _ => true
  | _ :: _, [] => false
  | a :: as, b :: bs => a == b && listStarts as bs

/-- Left-to-right non-overlapping literal replacement, Python
`text.replace(old, new)`.  The placeholders replaced in `postprocess_text` are
non-empty; the empty pattern is excluded.  Fuel dominates the subject length. -/
def replAux (pat repl : List Char) : Nat → List Char → List Char
  | _, [] => []
  | 0, s => s
  | f + 1, c :: rest =>
    if !pat.isEmpty && listStarts pat (c :: rest) then
      repl ++ replAux pat repl f (List.drop pat.length (c :: rest))
    else
      c :: replAux pat repl f rest

/-- One full `str.replace` call. -/
def replaceList (pat repl s : List Char) : List Char :=
  replAux pat repl s.length s

/-- Body of `TerminologyManager.postprocess_text`: for each recorded
placeholder, in dict-insertion order, literally replace it by the term
translation throughout the text. -/
def postprocess_text (text : String) (reps : List (String × Term)) : String :=
  String.mk (reps.foldl (fun s pr => replaceList pr.1.data pr.2.translation.data s) text.data)

/-- State of a `TerminologyManager` object: the `terms_by_domain_lang`
defaultdict (association list in insertion order, each table the values of its
`terms_dict` in insertion order) and the `domains_languages` set (duplicate-free
list in insertion order). -/
structure TerminologyManager where
  terms_by_domain_lang : List ((String × String) × List Term)
  domains_languages : List (String × String)
deriving DecidableEq, Repr

/-- Python tuple comparison on `(domain, language)` pairs (lexicographic by
code points), the order used by `sorted`. -/
def pairLe (a b : String × String) : Bool :=
  a.1 < b.1 || (a.1 == b.1 && (a.2 < b.2 || a.2 == b.2))

/-- Insertion step of a stable sort by `pairLe`. -/
def insertPairSorted (x : String × String) : List (String × String) → List (String × String)
  | [] => [x]
  | y :: ys => if pairLe x y then x :: y :: ys else y :: insertPairSorted x ys

/-- Python `sorted` on a collection of `(domain, language)` pairs. -/
def sortPairs : List (String × String) → List (String × String)
  | [] => []
  | x :: xs => insertPairSorted x (sortPairs xs)

/-- String comparison used by `sorted` on strings. -/
def strLe (a b : String) : Bool :=
  a < b || a == b

/-- Insertion step of a stable sort by `strLe`. -/
def insertStrSorted (x : String) : List String → List String
  | [] => [x]
  | y :: ys => if strLe x y then x :: y :: ys else y :: insertStrSorted x ys

/-- Python `sorted` on a collection of strings. -/
def sortStrings : List String → List String
  | [] => []
  | x :: xs => insertStrSorted x (sortStrings xs)

/-- Python set-comprehension deduplication (first occurrence kept; the final
order is irrelevant because the result is always sorted afterwards). -/
def dedupStr (l : List String) : List String :=
  l.foldl (fun acc s => if s ∈ acc then acc else acc ++ [s]) []

/-- Method `get_terms_for_domain_lang`: the dict get call with default empty dict.  `dict.get` never inserts (even on a `defaultdict`), so the
manager state is returned unchanged. -/
def TerminologyManager.get_terms_for_domain_lang (m : TerminologyManager)
    (domain language : String) : List Term × TerminologyManager :=
  ((List.lookup (domain, language) m.terms_by_domain_lang).getD [], m)

/-- Method `get_available_domains_languages`: `sorted(self.domains_languages)`. -/
def TerminologyManager.get_available_domains_languages (m : TerminologyManager) :
    List (String × String) :=
  sortPairs m.domains_languages

/-- Method `get_domains`: the sorted set of first components of the pairs. -/
def TerminologyManager.get_domains (m : TerminologyManager) : List String :=
  sortStrings (dedupStr (m.domains_languages.map Prod.fst))

/-- Method `get_languages`: the sorted set of second components of the pairs. -/
def TerminologyManager.get_languages (m : TerminologyManager) : List String :=
  sortStrings (dedupStr (m.domains_languages.map Prod.snd))

/-- Message of the `ValueError` raised by `preprocess_text`. -/
def noTermMsg (domain language : String) : String :=
  "No terminology found for domain \x27" ++ domain ++ "\x27 and language \x27" ++ language ++ "\x27"

/-- Method `TerminologyManager.preprocess_text`: fetch the term table for the
pair, raise `ValueError` when `not terms_dict` (the dict is empty, whether the
pair is absent or present with an empty table), else run the substitution
loop. -/
def TerminologyManager.preprocess_text (m : TerminologyManager)
    (text domain language : String) : Except String (String × List (String × Term)) :=
  let terms_dict := (m.get_terms_for_domain_lang domain language).1
  if terms_dict.isEmpty then Except.error (noTermMsg domain language)
  else Except.ok (runPasses terms_dict text)

/-- Result of `pd.read_csv` on one term source file: the header row and the
data rows, each row an association from column name to the cell rendered as a
string (the loaders apply `str(...)` to every cell they read). -/
structure ParsedCSV where
  columns : List String
  rows : List (List (String × String))
deriving DecidableEq, Repr

/-- One file of the term source directory.  `matchInfo` is the result of
matching the filename against the domain_terms_language.csv pattern
(`none` when the filename does not match); `content` is the result of
`pd.read_csv` (`none` when parsing raises). -/
structure SourceFile where
  matchInfo : Option (String × String)
  content : Option ParsedCSV
deriving DecidableEq, Repr

/-- Pandas row indexing `row[col]`: a `KeyError` when the column is absent. -/
def cellGet (row : List (String × String)) (col : String) : Except String String :=
  match List.lookup col row with
  | some v => Except.ok v
  | none => Except.error ("KeyError: " ++ col)

/-- Value of a non-empty all-digit character list read as a decimal number. -/
def digitsVal : List Char → Nat → Option Nat
  | [], acc => some acc
  | c :: rest, acc =>
    if isDigitChar c then digitsVal rest (acc * 10 + (c.toNat - 48)) else none

/-- Python `int(...)` on a cell string: surrounding whitespace is accepted, the
remainder must be a non-empty digit string (ids in the repository term tables
are non-negative decimal integers; signs are not modelled). -/
def parseIntCell (s : String) : Except String Nat :=
  match (pyStrip s).data with
  | [] => Except.error ("invalid literal for int() with base 10: " ++ s)
  | c :: rest =>
    match digitsVal (c :: rest) 0 with
    | some n => Except.ok n
    | none => Except.error ("invalid literal for int() with base 10: " ++ s)

/-- The body of the row loop of `TerminologyManager._load_terminologies`:
`term_id = int(row["id"])` then `Term(id=term_id, term=str(row["term"]).lower()
.strip(), translation=str(row["translation"]), ...)`.  Any missing column or
unparsable id raises, and nothing catches it; the exception propagates, modelled
by the explicit error threading. -/
def buildTerm (domain language : String) (row : List (String × String)) :
    Except String Term :=
  match cellGet row "id" with
  | Except.error e => Except.error e
  | Except.ok idCell =>
    match parseIntCell idCell with
    | Except.error e => Except.error e
    | Except.ok idv =>
      match cellGet row "term" with
      | Except.error e => Except.error e
      | Except.ok termCell =>
        match cellGet row "translation" with
        | Except.error e => Except.error e
        | Except.ok trCell =>
          Except.ok { id := idv, term := pyStrip (pyLower termCell), translation := trCell,
                      domain := domain, language := language }

/-- Python dict update `terms_dict[term.term] = term`: overwrite in place when
the key exists, else append (last write wins). -/
def insertTermTable (t : Term) : List Term → List Term
  | [] => [t]
  | u :: us => if u.term == t.term then t :: us else u :: insertTermTable t us

/-- Python dict update `self.terms_by_domain_lang[(domain, language)] =
terms_dict`. -/
def catalogInsert (key : String × String) (table : List Term) :
    List ((String × String) × List Term) → List ((String × String) × List Term)
  | [] => [(key, table)]
  | (k, tb) :: rest =>
    if k == key then (k, table) :: rest else (k, tb) :: catalogInsert key table rest

/-- Python set update `self.domains_languages.add((domain, language))`. -/
def addPair (l : List (String × String)) (p : String × String) : List (String × String) :=
  if p ∈ l then l else l ++ [p]

/-- The `for _, row in df.iterrows()` loop of `_load_terminologies`: build each
`Term` and store it under its `term` key; the first malformed row raises and
aborts the loop. -/
def buildTable (domain language : String) :
    List (List (String × String)) → List Term → Except String (List Term)
  | [], tb => Except.ok tb
  | row :: rest, tb =>
    match buildTerm domain language row with
    | Except.error e => Except.error e
    | Except.ok t => buildTable domain language rest (insertTermTable t tb)

/-- Processing of one directory entry in `_load_terminologies`: skip filenames
that do not match the pattern; otherwise record the pair, read the CSV (a parse
failure propagates) and build the term dict row by row (a malformed row
propagates). -/
def loadFileStep (acc : TerminologyManager) (f : SourceFile) :
    Except String TerminologyManager :=
  match f.matchInfo with
  | none => Except.ok acc
  | some (domain, language) =>
    let pairs := addPair acc.domains_languages (domain, language)
    match f.content with
    | none => Except.error "pd.read_csv raised"
    | some csv =>
      match buildTable domain language csv.rows [] with
      | Except.error e => Except.error e
      | Except.ok table =>
        Except.ok { terms_by_domain_lang :=
                      catalogInsert (domain, language) table acc.terms_by_domain_lang,
                    domains_languages := pairs }

/-- Exception-propagating traversal of the directory listing. -/
def loadAux : TerminologyManager → List SourceFile → Except String TerminologyManager
  | acc, [] => Except.ok acc
  | acc, f :: fs =>
    match loadFileStep acc f with
    | Except.error e => Except.error e
    | Except.ok acc2 => loadAux acc2 fs

/-- `TerminologyManager._load_terminologies` over the directory listing: a loop
with no exception handling, so any malformed matched file aborts the whole
load. -/
def loadTerminologies (files : List SourceFile) : Except String TerminologyManager :=
  loadAux { terms_by_domain_lang := [], domains_languages := [] } files

/-- One stored glossary row of `tc-translator/glossary_manager.py`: the `id`
cell kept as read, the `term` and `translation` cells whitespace-stripped by
the vectorized `df["term"].str.strip()` / `df["translation"].str.strip()`. -/
structure GRow where
  id : String
  term : String
  translation : String
deriving DecidableEq, Repr

/-- The column validation of `GlossaryManager._load_glossaries`:
`all(col in df.columns for col in ["id", "term", "translation"])`. -/
def requiredColsPresent (csv : ParsedCSV) : Bool :=
  ["id", "term", "translation"].all (fun c => csv.columns.contains c)

/-- One data row of a validated glossary DataFrame after the strip of the
`term` and `translation` columns (rows of a parsed CSV carry every header
column, so the lookups are total on well-formed input). -/
def toGRow (row : List (String × String)) : GRow :=
  { id := (List.lookup "id" row).getD "",
    term := pyStrip ((List.lookup "term" row).getD ""),
    translation := pyStrip ((List.lookup "translation" row).getD "") }

/-- Python dict update `glossaries[language][domain] = df`. -/
def domInsert (domain : String) (rows : List GRow) :
    List (String × List GRow) → List (String × List GRow)
  | [] => [(domain, rows)]
  | (d, r) :: rest =>
    if d == domain then (d, rows) :: rest else (d, r) :: domInsert domain rows rest

/-- Nested dict update storing a glossary by language then domain. -/
def nestedInsert (language domain : String) (rows : List GRow) :
    List (String × List (String × List GRow)) → List (String × List (String × List GRow))
  | [] => [(language, [(domain, rows)])]
  | (l, doms) :: rest =>
    if l == language then (l, domInsert domain rows doms) :: rest
    else (l, doms) :: nestedInsert language domain rows rest

/-- Processing of one directory entry in `GlossaryManager._load_glossaries`:
non-matching filenames are skipped; a `pd.read_csv` failure is caught by the
`try`/`except` (an error is printed, the file is skipped); a file missing a
required column is skipped with a warning; a well-formed file is stored. -/
def glossStep (acc : List (String × List (String × List GRow))) (f : SourceFile) :
    List (String × List (String × List GRow)) :=
  match f.matchInfo with
  | none => acc
  | some (domain, language) =>
    match f.content with
    | none => acc
    | some csv =>
      if requiredColsPresent csv then nestedInsert language domain (csv.rows.map toGRow) acc
      else acc

/-- `GlossaryManager._load_glossaries` over the directory listing. -/
def loadGlossaries (files : List SourceFile) : List (String × List (String × List GRow)) :=
  files.foldl glossStep []

/-- The result dictionary assembled by `TCTranslator.translate`. -/
structure TranslationResult where
  text : String
  src : String
  dest : String
  domain : String
  original : String
  preprocessed : String
  google_translation : String
  replacements_count : Nat
deriving DecidableEq, Repr

/-- Method `TCTranslator.translate`, with the external Google Translate
capability abstracted as a pure function `g` on the placeholder-bearing text.
The second component collects every text sent to the external capability (one
call in the source, inside the `try`).  Preprocessing happens before the
external call; its `ValueError` propagates and the external capability is not
reached. -/
def TCTranslator.translate (m : TerminologyManager) (domain target_lang src_lang : String)
    (g : String → String) (text : String) :
    Except String TranslationResult × List String :=
  match m.preprocess_text text domain target_lang with
  | Except.error e => (Except.error e, [])
  | Except.ok (pt, reps) =>
    let gt := g pt
    (Except.ok { text := postprocess_text gt reps, src := src_lang, dest := target_lang,
                 domain := domain, original := text, preprocessed := pt,
                 google_translation := gt, replacements_count := reps.length },
     [pt])

/-- Python `repr` of a list of string pairs, as interpolated into the
`ValueError` message of `TCTranslator.__init__`. -/
def reprPairs (ps : List (String × String)) : String :=
  "[" ++ String.intercalate ", " (ps.map (fun p => "(\x27" ++ p.1 ++ "\x27, \x27" ++ p.2 ++ "\x27)")) ++ "]"

/-- Message of the `ValueError` raised by `TCTranslator.__init__` when the
`(domain, target_lang)` pair is not available; it lists the currently available
pairs. -/
def unsupportedMsg (domain target_lang : String) (m : TerminologyManager) : String :=
  "Domain \x27" ++ domain ++ "\x27 with language \x27" ++ target_lang ++ "\x27 not found. " ++
    "Available: " ++ reprPairs m.get_available_domains_languages

/-- The availability check of `TCTranslator.__init__` (the constructor raises
before any translation can happen). -/
def TCTranslator.mkCheck (m : TerminologyManager) (domain target_lang : String) :
    Except String Unit :=
  if (domain, target_lang) ∈ m.get_available_domains_languages then Except.ok ()
  else Except.error (unsupportedMsg domain target_lang m)

/-- Result of the wrapper `Translator.translate`: the full terminology-control
dictionary when a domain was given, or the plain passthrough dictionary
(`text`, `src`, `dest`, `original`) when not. -/
inductive OrchResult where
  | tc (r : TranslationResult)
  | plain (text src dest original : String)
deriving DecidableEq, Repr

/-- Method `Translator.translate` of `tc_translate/translator.py`: with a
domain, construct a `TCTranslator` (whose constructor validates the pair
against the same terminology directory, hence the same catalog `m`) and
delegate; without a domain, call the external capability directly.  The second
component again collects the texts sent to the external capability. -/
def Translator.translate (m : TerminologyManager) (g : String → String)
    (text src dest : String) (domain : Option String) :
    Except String OrchResult × List String :=
  match domain with
  | some d =>
    match TCTranslator.mkCheck m d dest with
    | Except.error e => (Except.error e, [])
    | Except.ok _ =>
      match TCTranslator.translate m d dest src g text with
      | (Except.error e, calls) => (Except.error e, calls)
      | (Except.ok r, calls) => (Except.ok (OrchResult.tc r), calls)
  | none => (Except.ok (OrchResult.plain (g text) src dest text), [g text])

/-- Exact substring occurrence test (scaffolding for the spec-side
lost-placeholder count). -/
def containsSub (pat : List Char) : List Char → Bool
  | [] => pat.isEmpty
  | c :: rest => listStarts pat (c :: rest) || containsSub pat rest

/-- Modelled from the spec: the count of `PlaceholderLossDegradation` events of
one translate call — the number of placeholders inserted during preprocessing
that are absent from the text returned by the external capability.  The source
has no counterpart of this quantity; it is defined here from the words of the spec
to compare against the metadata the code actually returns. -/
def countLost (reps : List (String × Term)) (translated : String) : Nat :=
  (reps.filter (fun pr => !containsSub pr.1.data translated.data)).length

/-- Equality of `Except` values is decidable componentwise; used to evaluate
the embedded fallible operations on concrete inputs. -/
instance {e a : Type} [DecidableEq e] [DecidableEq a] : DecidableEq (Except e a) :=
  fun x y =>
    match x, y with
    | Except.ok v, Except.ok w =>
      if h : v = w then Decidable.isTrue (congrArg Except.ok h)
      else Decidable.isFalse (fun he => h (Except.ok.inj he))
    | Except.error v, Except.error w =>
      if h : v = w then Decidable.isTrue (congrArg Except.error h)
      else Decidable.isFalse (fun he => h (Except.error.inj he))
    | Except.ok _, Except.error _ => Decidable.isFalse (fun he => Except.noConfusion he)
    | Except.error _, Except.ok _ => Decidable.isFalse (fun he => Except.noConfusion he)

/-- A character that cannot take part in a case-insensitive match against any
character of a placeholder token: it is not an angle bracket and not a digit.
This is the placeholder-alphabet side condition of the substitution invariant. -/
def safeChar (c : Char) : Bool :=
  decide (c.toNat ≠ 60 ∧ c.toNat ≠ 62 ∧ ¬(48 ≤ c.toNat ∧ c.toNat ≤ 57))

/-- The character preceding the continuation of a scan after a copied segment:
the last character of the segment if there is one, else the previous context. -/
def lastOr (w : List Char) (prev : Option Char) : Option Char :=
  match w.getLast? with
  | some c => some c
  | none => prev

/-- A term source file that the glossary loader rejects: the filename matches
but the file fails to parse or lacks a required column. -/
def glossMalformed (f : SourceFile) : Prop :=
  f.matchInfo.isSome = true ∧
    (f.content = none ∨ ∃ csv, f.content = some csv ∧ requiredColsPresent csv = false)

/-- A term source file on which `_load_terminologies` raises: the filename
matches and the file either fails to parse or contains a row the `Term`
construction rejects. -/
def termMalformed (f : SourceFile) : Prop :=
  ∃ d l, f.matchInfo = some (d, l) ∧
    (f.content = none ∨
      ∃ csv, f.content = some csv ∧ ∃ row ∈ csv.rows, ∃ e, buildTerm d l row = Except.error e)

/-- Catalog fixture with a present but empty term table. -/
def c1Mgr : TerminologyManager :=
  { terms_by_domain_lang := [(("agric", "twi"), [])], domains_languages := [("agric", "twi")] }

/-- Term fixture: cocoa, id 7. -/
def c2CocoaTerm : Term :=
  { id := 7, term := "cocoa", translation := "kookoo", domain := "agric", language := "twi" }

/-- Term fixture: maize, id 8. -/
def c2MaizeTerm : Term :=
  { id := 8, term := "maize", translation := "aburo", domain := "agric", language := "twi" }

/-- Catalog fixture with two terms of equal length. -/
def c2Mgr : TerminologyManager :=
  { terms_by_domain_lang := [(("agric", "twi"), [c2CocoaTerm, c2MaizeTerm])],
    domains_languages := [("agric", "twi")] }

/-- Source file fixture whose CSV parse fails. -/
def c3BadFile : SourceFile := { matchInfo := some ("agric", "twi"), content := none }

/-- Source file fixture that is well formed. -/
def c3GoodFile : SourceFile :=
  { matchInfo := some ("science", "twi"),
    content := some { columns := ["id", "term", "translation"],
                      rows := [[("id", "1"), ("term", "atom"), ("translation", "atomu")]] } }

/-- Term fixture: cocoa, id 1. -/
def c4CocoaTerm : Term :=
  { id := 1, term := "cocoa", translation := "kookoo", domain := "agric", language := "twi" }

/-- Term fixture: the compound term cocoa pod, id 2. -/
def c4CocoaPodTerm : Term :=
  { id := 2, term := "cocoa pod", translation := "kookoo aba", domain := "agric",
    language := "twi" }

/-- Catalog fixture holding both cocoa and cocoa pod. -/
def c4Mgr : TerminologyManager :=
  { terms_by_domain_lang := [(("agric", "twi"), [c4CocoaTerm, c4CocoaPodTerm])],
    domains_languages := [("agric", "twi")] }

/-- Term fixture: cocoa with id 7, whose placeholder is therefore the token
matched by the digit term below. -/
def c5CocoaTerm : Term :=
  { id := 7, term := "cocoa", translation := "kookoo", domain := "agric", language := "twi" }

/-- Term fixture whose surface string is the digit 7. -/
def c5DigitTerm : Term :=
  { id := 3, term := "7", translation := "x", domain := "agric", language := "twi" }

/-- Catalog fixture holding cocoa (id 7) and the digit term 7. -/
def c5Mgr : TerminologyManager :=
  { terms_by_domain_lang := [(("agric", "twi"), [c5CocoaTerm, c5DigitTerm])],
    domains_languages := [("agric", "twi")] }

/-- Term fixture: cat. -/
def c6CatTerm : Term :=
  { id := 4, term := "cat", translation := "okra", domain := "zoo", language := "twi" }

/-- Catalog fixture holding the term cat. -/
def c6Mgr : TerminologyManager :=
  { terms_by_domain_lang := [(("zoo", "twi"), [c6CatTerm])],
    domains_languages := [("zoo", "twi")] }

/-- Term fixture: cocoa, id 7 (round-trip fixture). -/
def c7CocoaTerm : Term :=
  { id := 7, term := "cocoa", translation := "kookoo", domain := "agric", language := "twi" }

/-- Catalog fixture for the round-trip claim. -/
def c7Mgr : TerminologyManager :=
  { terms_by_domain_lang := [(("agric", "twi"), [c7CocoaTerm])],
    domains_languages := [("agric", "twi")] }

/-- Term fixture: cocoa (unsupported-pair fixture). -/
def c8CocoaTerm : Term :=
  { id := 7, term := "cocoa", translation := "kookoo", domain := "agric", language := "twi" }

/-- Catalog fixture offering only the pair (agric, twi). -/
def c8Mgr : TerminologyManager :=
  { terms_by_domain_lang := [(("agric", "twi"), [c8CocoaTerm])],
    domains_languages := [("agric", "twi")] }

/-- Source file fixture whose term cell carries case and padding and whose
translation cell carries padding. -/
def c9File : SourceFile :=
  { matchInfo := some ("agric", "twi"),
    content := some { columns := ["id", "term", "translation"],
                      rows := [[("id", "7"), ("term", " Cocoa "), ("translation", " kookoo ")]] } }

/-- Term fixture: cocoa (frame-effect fixture). -/
def c10Term : Term :=
  { id := 1, term := "cocoa", translation := "kookoo", domain := "agric", language := "twi" }

/-- Catalog fixture for the frame-effect claim. -/
def c10Mgr : TerminologyManager :=
  { terms_by_domain_lang := [(("agric", "twi"), [c10Term])],
    domains_languages := [("agric", "twi")] }

/-- The scanner leaves the subject unchanged when it reports no match. -/
theorem subAux_no_hit (term ph : List Char) :
    ∀ (f : Nat) (prev : Option Char) (s : List Char),
      (subAux term ph f prev s).2 = false → (subAux term ph f prev s).1 = s := by
  intro f
  induction f with
  | zero =>
    intro prev s h
    cases s <;> simp [subAux]
  | succ f ih =>
    intro prev s h
    cases s with
    | nil => simp [subAux]
    | cons c rest =>
      by_cases hm : termMatchesAt prev (c :: rest) term = true
      · simp [subAux, hm] at h
      · simp only [Bool.not_eq_true] at hm
        simp only [subAux, hm, Bool.false_eq_true, if_false] at h ⊢
        rw [ih (some c) rest h]

/-- A fold of substitution passes none of which matches is the identity and
records no replacement. -/
theorem pass_fold_no_hit :
    ∀ (ts : List Term) (txt : List Char),
      (∀ t ∈ ts, (subAux t.term.data (phChars t.id) txt.length none txt).2 = false) →
      ts.foldl passStep (txt, []) = (txt, []) := by
  intro ts
  induction ts with
  | nil => intro txt _; rfl
  | cons t ts ih =>
    intro txt h
    have h0 := h t (List.mem_cons_self t ts)
    have hstep : passStep (txt, []) t = (txt, []) := by
      unfold passStep
      dsimp only
      rw [subAux_no_hit _ _ _ _ _ h0, h0]
      simp
    rw [List.foldl_cons, hstep]
    exact ih txt (fun u hu => h u (List.mem_cons_of_mem t hu))

/-- Membership is preserved by the sorted insertion. -/
theorem mem_insertByLen (a t : Term) (l : List Term) :
    a ∈ insertByLen t l ↔ a = t ∨ a ∈ l := by
  induction l with
  | nil => simp [insertByLen]
  | cons u us ih =>
    unfold insertByLen
    by_cases hc : t.term.length < u.term.length
    · simp only [if_pos hc, List.mem_cons, ih]
      tauto
    · simp only [if_neg hc, List.mem_cons]

/-- Membership is preserved by the longest-first sort. -/
theorem mem_sortLenDesc (a : Term) (l : List Term) : a ∈ sortLenDesc l ↔ a ∈ l := by
  induction l with
  | nil => simp [sortLenDesc]
  | cons t ts ih =>
    unfold sortLenDesc
    rw [mem_insertByLen, ih]
    simp

/-- A valid code point survives the round trip through `Char.ofNat`. -/
theorem toNat_ofNat_valid (n : Nat) (h : n.isValidChar) : (Char.ofNat n).toNat = n := by
  simp only [Char.ofNat, dif_pos h, Char.ofNatAux, Char.toNat, UInt32.toNat]
  simp [BitVec.toNat_ofNatLt]

/-- Code point of the ASCII lower-casing. -/
theorem lowerChar_toNat (c : Char) :
    (lowerChar c).toNat = if 65 ≤ c.toNat ∧ c.toNat ≤ 90 then c.toNat + 32 else c.toNat := by
  unfold lowerChar
  split
  · next h =>
    have h2 : 65 ≤ c.toNat ∧ c.toNat ≤ 90 := by simpa using h
    rw [if_pos h2]
    apply toNat_ofNat_valid
    unfold Nat.isValidChar
    left
    omega
  · next h =>
    have h2 : ¬(65 ≤ c.toNat ∧ c.toNat ≤ 90) := by simpa using h
    rw [if_neg h2]

/-- Lower-casing does not change word-constituency. -/
theorem isWordChar_lowerChar (c : Char) : isWordChar (lowerChar c) = isWordChar c := by
  have h := lowerChar_toNat c
  unfold isWordChar
  rw [Bool.eq_iff_iff]
  by_cases hc : 65 ≤ c.toNat ∧ c.toNat ≤ 90
  · rw [if_pos hc] at h
    rw [h]
    simp only [Bool.or_eq_true, Bool.and_eq_true, decide_eq_true_eq, beq_iff_eq]
    omega
  · rw [if_neg hc] at h
    rw [h]

/-- Characters equal up to case agree on word-constituency. -/
theorem ciEq_word (a b : Char) (hab : ciEq a b = true) : isWordChar a = isWordChar b := by
  unfold ciEq at hab
  have h : lowerChar a = lowerChar b := by simpa using hab
  rw [← isWordChar_lowerChar a, ← isWordChar_lowerChar b, h]

/-- A case-insensitive match exposes its first subject character. -/
theorem ciStarts_head (t0 : Char) (ts s : List Char) (h : ciStarts (t0 :: ts) s = true) :
    ∃ s0 ss, s = s0 :: ss ∧ ciEq t0 s0 = true := by
  cases s with
  | nil => simp [ciStarts] at h
  | cons s0 ss =>
    simp only [ciStarts, Bool.and_eq_true] at h
    exact ⟨s0, ss, rfl, h.1⟩

/-- A case-insensitive match relates the last pattern character to the last
character of the matched span. -/
theorem ciStarts_getLast :
    ∀ (term s : List Char), term ≠ [] → ciStarts term s = true →
      ∃ a c, term.getLast? = some a ∧ (List.take term.length s).getLast? = some c ∧
        ciEq a c = true := by
  intro term
  induction term with
  | nil => intro s h; exact absurd rfl h
  | cons t0 ts ih =>
    intro s _ h
    cases s with
    | nil => simp [ciStarts] at h
    | cons s0 ss =>
      simp only [ciStarts, Bool.and_eq_true] at h
      cases ts with
      | nil =>
        refine ⟨t0, s0, rfl, ?_, h.1⟩
        simp
      | cons t1 ts2 =>
        obtain ⟨a, c, ha, hc, hac⟩ := ih ss (by simp) h.2
        refine ⟨a, c, ?_, ?_, hac⟩
        · rw [List.getLast?_cons_cons]
          exact ha
        · have hl : List.take (t1 :: ts2).length ss ≠ [] := by
            intro hnil
            rw [hnil] at hc
            simp at hc
          cases hl2 : List.take (t1 :: ts2).length ss with
          | nil => exact absurd hl2 hl
          | cons y l2 =>
            rw [List.length_cons, List.take_succ_cons]
            show (s0 :: List.take (ts2.length + 1) ss).getLast? = some c
            rw [show ts2.length + 1 = (t1 :: ts2).length from rfl, hl2, List.getLast?_cons_cons]
            rw [hl2] at hc
            exact hc

/-- A case-insensitive match needs at least as many subject characters as the
pattern has. -/
theorem ciStarts_length : ∀ (term s : List Char), ciStarts term s = true →
    term.length ≤ s.length := by
  intro term
  induction term with
  | nil => intro s _; simp
  | cons a as ih =>
    intro s h
    cases s with
    | nil => simp [ciStarts] at h
    | cons b bs =>
      simp only [ciStarts, Bool.and_eq_true] at h
      simp only [List.length_cons]
      exact Nat.succ_le_succ (ih bs h.2)

/-- A match fails before it reaches a character no pattern character can equal. -/
theorem ciStarts_append_eq :
    ∀ (term : List Char) (b : Char) (w z : List Char), (∀ a ∈ term, ciEq a b = false) →
      ciStarts term (w ++ b :: z) = ciStarts term w := by
  intro term
  induction term with
  | nil => intro b w z _; rfl
  | cons a as ih =>
    intro b w z hb
    cases w with
    | nil =>
      simp only [List.nil_append, ciStarts, hb a (List.mem_cons_self a as), Bool.false_and]
    | cons w0 ws =>
      simp only [List.cons_append, ciStarts]
      show (ciEq a w0 && ciStarts as (ws ++ b :: z)) = (ciEq a w0 && ciStarts as ws)
      rw [ih b ws z (fun x hx => hb x (List.mem_cons_of_mem _ hx))]

/-- Appending text that begins with an unmatchable non-word character does not
change whether the pattern matches at the head of a non-empty subject. -/
theorem termMatchesAt_append_eq (term : List Char) (prev : Option Char) (c : Char) (w2 : List Char)
    (b : Char) (z : List Char) (hb : ∀ a ∈ term, ciEq a b = false) (hbw : isWordChar b = false) :
    termMatchesAt prev ((c :: w2) ++ b :: z) term = termMatchesAt prev (c :: w2) term := by
  unfold termMatchesAt
  rw [ciStarts_append_eq term b (c :: w2) z hb]
  by_cases hci : ciStarts term (c :: w2) = true
  · have hlen : term.length ≤ (c :: w2).length := ciStarts_length term (c :: w2) hci
    rw [List.take_append_of_le_length hlen]
    rcases Nat.lt_or_ge term.length (c :: w2).length with hlt | hge
    · rw [List.drop_append_of_le_length hlen]
      have hne : List.drop term.length (c :: w2) ≠ [] := by
        intro h0
        have h1 := congrArg List.length h0
        rw [List.length_drop] at h1
        simp only [List.length_nil] at h1
        omega
      rw [List.head?_append_of_ne_nil _ hne]
      simp [List.cons_append, List.head?_cons]
    · have heq : term.length = (c :: w2).length := Nat.le_antisymm hlen hge
      rw [heq, List.drop_left, List.drop_length]
      simp only [List.head?_cons, List.head?_nil]
      unfold boundaryB
      rw [show wordOpt (some b) = wordOpt none from by simp [wordOpt, hbw]]
      simp [List.cons_append]
  · have hci2 : ciStarts term (c :: w2) = false := Bool.eq_false_iff.mpr hci
    rw [hci2]
    simp

/-- A term never matches at the head of an empty pattern list. -/
theorem termMatchesAt_ne_nil (prev : Option Char) (s term : List Char)
    (h : termMatchesAt prev s term = true) : term ≠ [] := by
  cases term with
  | nil => simp [termMatchesAt] at h
  | cons x xs => simp

/-- The scanner on the empty subject, with any fuel. -/
theorem subAux_nil (term ph : List Char) (f : Nat) (prev : Option Char) :
    subAux term ph f prev [] = ([], false) := by
  cases f <;> rfl

/-- Any fuel at least the subject length gives the same scan. -/
theorem subAux_fuel (term ph : List Char) :
    ∀ (f1 : Nat) (f2 : Nat) (prev : Option Char) (s : List Char),
      s.length ≤ f1 → s.length ≤ f2 →
      subAux term ph f1 prev s = subAux term ph f2 prev s := by
  intro f1
  induction f1 with
  | zero =>
    intro f2 prev s h1 h2
    have hs : s = [] := List.eq_nil_of_length_eq_zero (Nat.le_zero.mp h1)
    subst hs
    rw [subAux_nil, subAux_nil]
  | succ f1 ih =>
    intro f2 prev s h1 h2
    cases s with
    | nil => rw [subAux_nil, subAux_nil]
    | cons c rest =>
      cases f2 with
      | zero =>
        rw [List.length_cons] at h2
        exact absurd h2 (Nat.not_succ_le_zero _)
      | succ f3 =>
        rw [List.length_cons] at h1 h2
        simp only [subAux]
        by_cases hm : termMatchesAt prev (c :: rest) term = true
        · have hterm := termMatchesAt_ne_nil _ _ _ hm
          have hl : 1 ≤ term.length := by
            cases term with
            | nil => exact absurd rfl hterm
            | cons x xs => simp
          have hrec := ih f3 (List.take term.length (c :: rest)).getLast?
            (List.drop term.length (c :: rest))
            (by simp only [List.length_drop, List.length_cons]; omega)
            (by simp only [List.length_drop, List.length_cons]; omega)
          rw [if_pos hm, if_pos hm, hrec]
        · have hrec := ih f3 (some c) rest (by omega) (by omega)
          rw [if_neg hm, if_neg hm, hrec]

/-- Every character produced by `digitChar` is a decimal digit. -/
theorem isDigitChar_digitChar (n : Nat) : isDigitChar (digitChar n) = true := by
  unfold digitChar isDigitChar
  have hm : n % 10 < 10 := Nat.mod_lt n (by norm_num)
  have hv : (48 + n % 10).isValidChar := by
    unfold Nat.isValidChar
    left
    omega
  rw [toNat_ofNat_valid _ hv]
  simp only [Bool.and_eq_true, decide_eq_true_eq]
  omega

/-- Every character of the decimal rendering is a digit. -/
theorem natDigitsAux_digits :
    ∀ (f n : Nat) (c : Char), c ∈ natDigitsAux f n → isDigitChar c = true := by
  intro f
  induction f with
  | zero => intro n c h; simp [natDigitsAux] at h
  | succ f ih =>
    intro n c h
    unfold natDigitsAux at h
    by_cases hn : n < 10
    · rw [if_pos hn] at h
      simp only [List.mem_singleton] at h
      subst h
      exact isDigitChar_digitChar n
    · rw [if_neg hn] at h
      rcases List.mem_append.mp h with h2 | h2
      · exact ih _ _ h2
      · simp only [List.mem_singleton] at h2
        subst h2
        exact isDigitChar_digitChar _

/-- Every character of a placeholder token is an angle bracket or a digit. -/
theorem phChars_classify (id : Nat) :
    ∀ c ∈ phChars id, c = '<' ∨ c = '>' ∨ isDigitChar c = true := by
  intro c h
  unfold phChars at h
  rcases List.mem_cons.mp h with h1 | h2
  · exact Or.inl h1
  · rcases List.mem_append.mp h2 with h3 | h4
    · exact Or.inr (Or.inr (natDigitsAux_digits _ _ _ h3))
    · simp only [List.mem_singleton] at h4
      exact Or.inr (Or.inl h4)

/-- A safe character is never case-insensitively equal to a placeholder
character. -/
theorem safeChar_blocks (a c : Char) (ha : safeChar a = true)
    (hc : c = '<' ∨ c = '>' ∨ isDigitChar c = true) : ciEq a c = false := by
  have hcn : c.toNat = 60 ∨ c.toNat = 62 ∨ (48 ≤ c.toNat ∧ c.toNat ≤ 57) := by
    rcases hc with h | h | h
    · left; rw [h]; rfl
    · right; left; rw [h]; rfl
    · right; right
      unfold isDigitChar at h
      simp only [Bool.and_eq_true, decide_eq_true_eq] at h
      exact h
  have hlc : (lowerChar c).toNat = c.toNat := by
    rw [lowerChar_toNat, if_neg]
    omega
  have hla := lowerChar_toNat a
  unfold safeChar at ha
  rw [decide_eq_true_eq] at ha
  unfold ciEq
  apply beq_eq_false_iff_ne.mpr
  intro heq
  have hnat : (lowerChar a).toNat = (lowerChar c).toNat := by rw [heq]
  rw [hlc, hla] at hnat
  by_cases haz : 65 ≤ a.toNat ∧ a.toNat ≤ 90
  · rw [if_pos haz] at hnat
    omega
  · rw [if_neg haz] at hnat
    omega

/-- Placeholder tokens end with a closing angle bracket. -/
theorem phChars_eq (id : Nat) : phChars id = ('<' :: natDigits id) ++ ['>'] := by
  simp [phChars]

/-- Last character of a placeholder token. -/
theorem phChars_getLast (id : Nat) : (phChars id).getLast? = some '>' := by
  rw [phChars_eq]
  exact List.getLast?_concat _

/-- The scanner copies verbatim any leading segment whose characters can never
begin a match of the term. -/
theorem subAux_copy (t0 : Char) (ts ph : List Char) :
    ∀ (w : List Char) (f : Nat) (prev : Option Char) (z : List Char),
      (∀ c ∈ w, ciEq t0 c = false) → (w ++ z).length ≤ f →
      subAux (t0 :: ts) ph f prev (w ++ z) =
        (w ++ (subAux (t0 :: ts) ph z.length (lastOr w prev) z).1,
         (subAux (t0 :: ts) ph z.length (lastOr w prev) z).2) := by
  intro w
  induction w with
  | nil =>
    intro f prev z hw hf
    simp only [List.nil_append] at hf ⊢
    rw [subAux_fuel (t0 :: ts) ph f z.length prev z hf (Nat.le_refl _)]
    simp [lastOr]
  | cons c w2 ih =>
    intro f prev z hw hf
    cases f with
    | zero =>
      rw [List.cons_append, List.length_cons] at hf
      exact absurd hf (Nat.not_succ_le_zero _)
    | succ f2 =>
      have hnomatch : ¬ termMatchesAt prev (c :: (w2 ++ z)) (t0 :: ts) = true := by
        unfold termMatchesAt
        simp [ciStarts, hw c (List.mem_cons_self _ _)]
      show subAux (t0 :: ts) ph (f2 + 1) prev (c :: (w2 ++ z)) = _
      simp only [subAux]
      rw [if_neg hnomatch]
      have hrec := ih f2 (some c) z (fun x hx => hw x (List.mem_cons_of_mem _ hx))
        (by rw [List.cons_append, List.length_cons] at hf; omega)
      rw [hrec]
      have hlast : lastOr w2 (some c) = lastOr (c :: w2) prev := by
        cases w2 with
        | nil => simp [lastOr]
        | cons y ys =>
          unfold lastOr
          rw [List.getLast?_cons_cons]
          cases hys : (y :: ys).getLast? with
          | none => simp at hys
          | some q => rfl
      rw [hlast]
      simp

/-- Core invariant: when every character of the (non-empty) term is outside the
placeholder alphabet, one substitution pass maps a text decomposed around a
placeholder token to the processed left part, the token verbatim, and the
processed right part. -/
theorem subAux_ph_intact (term ph : List Char) (id : Nat) (t0 : Char) (ts : List Char)
    (hterm : term = t0 :: ts) (hsafe : ∀ c ∈ term, safeChar c = true) :
    ∀ (n : Nat) (u : List Char), u.length ≤ n → ∀ (f : Nat) (prev : Option Char) (v : List Char),
      (u ++ phChars id ++ v).length ≤ f →
      (subAux term ph f prev (u ++ phChars id ++ v)).1 =
        (subAux term ph u.length prev u).1 ++ phChars id ++
          (subAux term ph v.length (some '>') v).1 := by
  have hblock : ∀ c ∈ phChars id, ciEq t0 c = false := by
    intro c hc
    exact safeChar_blocks t0 c (hsafe t0 (by rw [hterm]; exact List.mem_cons_self _ _))
      (phChars_classify id c hc)
  have hblockAll : ∀ a ∈ term, ciEq a '<' = false := by
    intro a ha
    exact safeChar_blocks a '<' (hsafe a ha) (Or.inl rfl)
  intro n
  induction n with
  | zero =>
    intro u hu f prev v hf
    have hu0 : u = [] := List.eq_nil_of_length_eq_zero (Nat.le_zero.mp hu)
    subst hu0
    subst hterm
    rw [List.nil_append] at hf ⊢
    rw [subAux_copy t0 ts ph (phChars id) f prev v hblock hf]
    rw [show lastOr (phChars id) prev = some '>' from by
      unfold lastOr
      rw [phChars_getLast]]
    rw [subAux_nil]
    simp
  | succ n ih =>
    intro u hu f prev v hf
    cases u with
    | nil =>
      subst hterm
      rw [List.nil_append] at hf ⊢
      rw [subAux_copy t0 ts ph (phChars id) f prev v hblock hf]
      rw [show lastOr (phChars id) prev = some '>' from by
        unfold lastOr
        rw [phChars_getLast]]
      rw [subAux_nil]
      simp
    | cons c u2 =>
      cases f with
      | zero =>
        exfalso
        rw [List.length_append, List.length_append, List.length_cons] at hf
        omega
      | succ f2 =>
        have hcond : termMatchesAt prev ((c :: u2) ++ ('<' :: (natDigits id ++ ['>'] ++ v))) term
            = termMatchesAt prev (c :: u2) term :=
          termMatchesAt_append_eq term prev c u2 '<' (natDigits id ++ ['>'] ++ v) hblockAll
            (by decide)
        have hshape2 : (c :: u2) ++ phChars id ++ v =
            (c :: u2) ++ ('<' :: (natDigits id ++ ['>'] ++ v)) := by
          simp [phChars, List.cons_append, List.append_assoc]
        rw [hshape2]
        show (subAux term ph (f2 + 1) prev (c :: (u2 ++ ('<' :: (natDigits id ++ ['>'] ++ v))))).1
          = _
        by_cases hm : termMatchesAt prev (c :: u2) term = true
        · have hm2 : termMatchesAt prev (c :: (u2 ++ ('<' :: (natDigits id ++ ['>'] ++ v)))) term
              = true := by
            rw [show c :: (u2 ++ ('<' :: (natDigits id ++ ['>'] ++ v)))
                = (c :: u2) ++ ('<' :: (natDigits id ++ ['>'] ++ v)) from by
                  simp [List.cons_append],
              hcond]
            exact hm
          have hci : ciStarts term (c :: u2) = true := by
            simp only [termMatchesAt, Bool.and_eq_true] at hm
            exact hm.1.1.2
          have hlen : term.length ≤ (c :: u2).length := ciStarts_length term (c :: u2) hci
          have hl1 : 1 ≤ term.length := by
            rw [hterm]
            simp
          simp only [subAux]
          rw [if_pos hm2]
          have htake : List.take term.length (c :: (u2 ++ ('<' :: (natDigits id ++ ['>'] ++ v))))
              = List.take term.length (c :: u2) := by
            rw [show c :: (u2 ++ ('<' :: (natDigits id ++ ['>'] ++ v)))
                = (c :: u2) ++ ('<' :: (natDigits id ++ ['>'] ++ v)) from by
                  simp [List.cons_append]]
            exact List.take_append_of_le_length hlen
          have hdrop : List.drop term.length (c :: (u2 ++ ('<' :: (natDigits id ++ ['>'] ++ v))))
              = List.drop term.length (c :: u2) ++ phChars id ++ v := by
            rw [show c :: (u2 ++ ('<' :: (natDigits id ++ ['>'] ++ v)))
                = (c :: u2) ++ ('<' :: (natDigits id ++ ['>'] ++ v)) from by
                  simp [List.cons_append]]
            rw [List.drop_append_of_le_length hlen]
            simp [phChars, List.cons_append, List.append_assoc]
          rw [htake, hdrop]
          have hulen : (List.drop term.length (c :: u2)).length ≤ n := by
            rw [List.length_drop]
            rw [List.length_cons] at hu ⊢
            omega
          have hflen : ((List.drop term.length (c :: u2)) ++ phChars id ++ v).length ≤ f2 := by
            simp only [List.length_append, List.length_cons, List.length_drop] at hf ⊢
            omega
          rw [ih (List.drop term.length (c :: u2)) hulen f2
            (List.take term.length (c :: u2)).getLast? v hflen]
          rw [if_pos hm]
          rw [subAux_fuel term ph u2.length (List.drop term.length (c :: u2)).length
            (List.take term.length (c :: u2)).getLast? (List.drop term.length (c :: u2))
            (by simp only [List.length_drop, List.length_cons]; omega) (Nat.le_refl _)]
          simp [List.append_assoc]
        · have hm2 : termMatchesAt prev (c :: (u2 ++ ('<' :: (natDigits id ++ ['>'] ++ v)))) term
              = false := by
            rw [show c :: (u2 ++ ('<' :: (natDigits id ++ ['>'] ++ v)))
                = (c :: u2) ++ ('<' :: (natDigits id ++ ['>'] ++ v)) from by
                  simp [List.cons_append],
              hcond]
            exact Bool.eq_false_iff.mpr hm
          simp only [subAux]
          rw [if_neg (by rw [hm2]; exact Bool.false_ne_true)]
          have hflen : (u2 ++ phChars id ++ v).length ≤ f2 := by
            simp only [List.length_append, List.length_cons] at hf ⊢
            omega
          have hrec := ih u2 (by rw [List.length_cons] at hu; omega) f2 (some c) v hflen
          rw [show u2 ++ ('<' :: (natDigits id ++ ['>'] ++ v)) = u2 ++ phChars id ++ v from by
            simp [phChars, List.cons_append, List.append_assoc]]
          rw [hrec]
          rw [if_neg hm]
          simp [List.cons_append]

/-- The glossary loader ignores a malformed file entirely. -/
theorem glossStep_skip (f : SourceFile) (hf : glossMalformed f)
    (acc : List (String × List (String × List GRow))) : glossStep acc f = acc := by
  obtain ⟨hm, hc⟩ := hf
  cases hmi : f.matchInfo with
  | none => simp [glossStep, hmi]
  | some dl =>
    obtain ⟨d, l⟩ := dl
    rcases hc with hnone | ⟨csv, hcsv, hcols⟩
    · simp [glossStep, hmi, hnone]
    · simp [glossStep, hmi, hcsv, hcols]

/-- A malformed row makes the whole table construction raise. -/
theorem buildTable_error (d l : String) :
    ∀ (rows : List (List (String × String))) (tb : List Term),
      (∃ row ∈ rows, ∃ e, buildTerm d l row = Except.error e) →
      ∃ e, buildTable d l rows tb = Except.error e := by
  intro rows
  induction rows with
  | nil =>
    rintro tb ⟨row, hmem, _⟩
    cases hmem
  | cons r rs ih =>
    rintro tb ⟨row, hmem, e, he⟩
    cases hb : buildTerm d l r with
    | error e2 => exact ⟨e2, by simp [buildTable, hb]⟩
    | ok t =>
      rcases List.mem_cons.mp hmem with heq | hmem2
      · subst heq
        rw [hb] at he
        exact Except.noConfusion he
      · obtain ⟨e2, h2⟩ := ih (insertTermTable t tb) ⟨row, hmem2, e, he⟩
        exact ⟨e2, by simp [buildTable, hb, h2]⟩

/-- Processing a malformed matched file raises, whatever the state so far. -/
theorem loadFileStep_error (f : SourceFile) (hf : termMalformed f) (acc : TerminologyManager) :
    ∃ e, loadFileStep acc f = Except.error e := by
  obtain ⟨d, l, hmi, hc⟩ := hf
  rcases hc with hnone | ⟨csv, hcsv, hrow⟩
  · exact ⟨"pd.read_csv raised", by simp [loadFileStep, hmi, hnone]⟩
  · obtain ⟨e, he⟩ := buildTable_error d l csv.rows [] hrow
    exact ⟨e, by simp [loadFileStep, hmi, hcsv, he]⟩

/-- The whole terminology load raises as soon as some file in the listing is
malformed. -/
theorem loadAux_error :
    ∀ (files : List SourceFile) (acc : TerminologyManager),
      (∃ f ∈ files, termMalformed f) → ∃ e, loadAux acc files = Except.error e := by
  intro files
  induction files with
  | nil =>
    rintro acc ⟨f, hf, _⟩
    cases hf
  | cons g gs ih =>
    rintro acc ⟨f, hf, hmal⟩
    cases hstep : loadFileStep acc g with
    | error e => exact ⟨e, by simp [loadAux, hstep]⟩
    | ok acc2 =>
      rcases List.mem_cons.mp hf with heq | hmem
      · subst heq
        obtain ⟨e, he⟩ := loadFileStep_error f hmal acc
        rw [hstep] at he
        exact Except.noConfusion he
      · obtain ⟨e, he⟩ := ih acc2 ⟨f, hmem, hmal⟩
        exact ⟨e, by simp [loadAux, hstep, he]⟩

/-- C1 counterexample: the catalog `c1Mgr` contains the pair (agric, twi) with
an empty (but present) term table, yet `preprocess_text` raises the
no-terminology `ValueError` instead of succeeding with the text unchanged and
an empty mapping, contradicting the claim that an empty-but-present table is
accepted. -/
theorem C1_counterexample :
    List.lookup ("agric", "twi") c1Mgr.terms_by_domain_lang = some [] ∧
    c1Mgr.preprocess_text "hello" "agric" "twi" = Except.error (noTermMsg "agric" "twi") := by
  decide

/-- C1 amended: `preprocess_text` fails with the no-terminology error exactly
when the term table retrieved for (domain, language) is empty — both when the
pair is wholly absent from the catalog and when it is present with an empty
table; only a non-empty table lets preprocessing proceed. -/
theorem C1_amended (m : TerminologyManager) (text domain language : String) :
    (∃ e, m.preprocess_text text domain language = Except.error e) ↔
      (m.get_terms_for_domain_lang domain language).1 = [] := by
  constructor
  · rintro ⟨e, he⟩
    unfold TerminologyManager.preprocess_text at he
    by_cases h : ((m.get_terms_for_domain_lang domain language).1).isEmpty
    · exact List.isEmpty_iff.mp h
    · simp [h] at he
  · intro h
    refine ⟨noTermMsg domain language, ?_⟩
    unfold TerminologyManager.preprocess_text
    simp [h]

/-- C2 counterexample: with two terms substituted and an external capability
that drops one of the two placeholders, the translate result metadata reports
`replacements_count = 2` (the inserted count) while the number of lost
placeholders is 1; no field of the result carries the lost count, contradicting
the claim that the metadata counts lost placeholders. -/
theorem C2_counterexample :
    TCTranslator.translate c2Mgr "agric" "twi" "en" (fun _ => "<7>") "cocoa maize" =
      (Except.ok { text := "kookoo", src := "en", dest := "twi", domain := "agric",
                   original := "cocoa maize", preprocessed := "<7> <8>",
                   google_translation := "<7>", replacements_count := 2 }, ["<7> <8>"]) ∧
    countLost [(placeholderStr 7, c2CocoaTerm), (placeholderStr 8, c2MaizeTerm)] "<7>" = 1 ∧
    (1 : Nat) ≠ 2 := by
  decide

/-- C2 amended: for every translate call whose preprocessing succeeds, the
result metadata carries the count of placeholders inserted during preprocessing
(`replacements_count`); a placeholder absent from the external output is
silently skipped by postprocessing (no error), and no lost-placeholder count
appears in the result. -/
theorem C2_amended (m : TerminologyManager) (d tl sl : String) (g : String → String)
    (text pt : String) (reps : List (String × Term))
    (h : m.preprocess_text text d tl = Except.ok (pt, reps)) :
    TCTranslator.translate m d tl sl g text =
      (Except.ok { text := postprocess_text (g pt) reps, src := sl, dest := tl, domain := d,
                   original := text, preprocessed := pt, google_translation := g pt,
                   replacements_count := reps.length }, [pt]) := by
  simp [TCTranslator.translate, h]

/-- C2 witness: the amended statement evaluated on a concrete call whose
external capability drops a placeholder. -/
theorem C2_amended_witness :
    TCTranslator.translate c2Mgr "agric" "twi" "en" (fun _ => "kook aburo") "cocoa maize" =
      (Except.ok { text := postprocess_text ((fun (_ : String) => "kook aburo") "<7> <8>")
                     [(placeholderStr 7, c2CocoaTerm), (placeholderStr 8, c2MaizeTerm)],
                   src := "en", dest := "twi", domain := "agric", original := "cocoa maize",
                   preprocessed := "<7> <8>",
                   google_translation := (fun (_ : String) => "kook aburo") "<7> <8>",
                   replacements_count :=
                     [(placeholderStr 7, c2CocoaTerm), (placeholderStr 8, c2MaizeTerm)].length },
        ["<7> <8>"]) :=
  C2_amended c2Mgr "agric" "twi" "en" (fun _ => "kook aburo") "cocoa maize" "<7> <8>"
    [(placeholderStr 7, c2CocoaTerm), (placeholderStr 8, c2MaizeTerm)] (by decide)

/-- C3 counterexample: a directory listing whose first matched file fails to
parse makes the whole `TerminologyManager` load raise, so the following
well-formed file is never loaded — the malformed file is not skipped; the same
well-formed file alone loads fine. -/
theorem C3_counterexample :
    loadTerminologies [c3BadFile, c3GoodFile] = Except.error "pd.read_csv raised" ∧
    loadTerminologies [c3GoodFile] =
      Except.ok { terms_by_domain_lang :=
                    [(("science", "twi"),
                      [{ id := 1, term := "atom", translation := "atomu",
                         domain := "science", language := "twi" }])],
                  domains_languages := [("science", "twi")] } := by
  decide

/-- C3 amended: in the GlossaryManager variant a file that fails to parse or
lacks a required column is skipped and loading of the remaining files continues
(removing the malformed file from the listing does not change the result); in
the TerminologyManager variant any malformed matched file in the listing makes
the whole load raise. -/
theorem C3_amended :
    (∀ (pre post : List SourceFile) (bad : SourceFile), glossMalformed bad →
        loadGlossaries (pre ++ bad :: post) = loadGlossaries (pre ++ post)) ∧
    (∀ (files : List SourceFile), (∃ f ∈ files, termMalformed f) →
        ∃ e, loadTerminologies files = Except.error e) := by
  constructor
  · intro pre post bad hbad
    unfold loadGlossaries
    rw [List.foldl_append, List.foldl_append, List.foldl_cons, glossStep_skip bad hbad]
  · intro files hex
    exact loadAux_error files _ hex

/-- C3 witness: both halves of the amended statement evaluated on concrete
listings containing an unparsable file. -/
theorem C3_amended_witness :
    loadGlossaries ([] ++ c3BadFile :: [c3GoodFile]) = loadGlossaries ([] ++ [c3GoodFile]) ∧
    (∃ e, loadTerminologies [c3BadFile] = Except.error e) :=
  ⟨C3_amended.1 [] [c3GoodFile] c3BadFile ⟨rfl, Or.inl rfl⟩,
   C3_amended.2 [c3BadFile] ⟨c3BadFile, List.mem_singleton.mpr rfl,
     "agric", "twi", rfl, Or.inl rfl⟩⟩

/-- C4: with both cocoa and cocoa pod in the table, preprocessing the text
"I grow cocoa pod here" replaces the full compound span by the single
placeholder of the compound term (id 2), and the mapping holds exactly that
placeholder — not a cocoa placeholder followed by the literal text " pod". -/
theorem C4_longest_match :
    c4Mgr.preprocess_text "I grow cocoa pod here" "agric" "twi" =
      Except.ok ("I grow <2> here", [(placeholderStr 2, c4CocoaPodTerm)]) := by
  decide

/-- C5 counterexample: with the terms cocoa (id 7) and the digit term 7 in one
table, preprocessing the text "cocoa" first inserts the placeholder token for
cocoa and the later pass of the digit term re-matches inside that token and
rewrites it, so a placeholder inserted by an earlier pass is rewritten by a
later case-insensitive word-boundary substitution — the claimed invariant fails
as stated. -/
theorem C5_counterexample :
    c5Mgr.preprocess_text "cocoa" "agric" "twi" =
      Except.ok ("<<3>>", [(placeholderStr 7, c5CocoaTerm), (placeholderStr 3, c5DigitTerm)]) ∧
    (runSub "7".data (phChars 3) (phChars 7)).1 = "<<3>>".data := by
  decide

/-- C5 amended: a later term substitution pass never re-matches (wholly or
partly) a placeholder token present in the text, provided the term surface
string contains no character of the placeholder alphabet (no digits, no angle
brackets): the pass maps the decomposition around the token to the processed
left part, the token verbatim, and the processed right part. -/
theorem C5_amended (term ph u v : List Char) (id : Nat)
    (hne : term ≠ []) (hsafe : ∀ c ∈ term, safeChar c = true) :
    (runSub term ph (u ++ phChars id ++ v)).1 =
      (runSub term ph u).1 ++ phChars id ++ (subAux term ph v.length (some '>') v).1 := by
  obtain ⟨t0, ts, hterm⟩ : ∃ t0 ts, term = t0 :: ts := by
    cases term with
    | nil => exact absurd rfl hne
    | cons a b => exact ⟨a, b, rfl⟩
  unfold runSub
  exact subAux_ph_intact term ph id t0 ts hterm hsafe u.length u (Nat.le_refl _)
    (u ++ phChars id ++ v).length none v (Nat.le_refl _)

/-- C5 witness: the amended statement evaluated for the alphabetic term cocoa
on a text containing the placeholder of id 9. -/
theorem C5_amended_witness :
    (runSub "cocoa".data (phChars 7) ("I grow ".data ++ phChars 9 ++ " here".data)).1 =
      (runSub "cocoa".data (phChars 7) "I grow ".data).1 ++ phChars 9 ++
        (subAux "cocoa".data (phChars 7) " here".data.length (some '>') " here".data).1 :=
  C5_amended "cocoa".data (phChars 7) "I grow ".data " here".data 9 (by decide) (by decide)

/-- C6: term matching in preprocess is word-boundary-delimited: a match of a
term beginning with a word-constituent character is never immediately preceded
by a word-constituent character, a match of a term ending with a
word-constituent character is never immediately followed by one, and
concretely a table containing the term cat leaves the text "category theory"
unchanged with an empty mapping. -/
theorem C6_word_boundary :
    (∀ (prev : Char) (s : List Char) (t0 : Char) (ts : List Char),
        isWordChar t0 = true → termMatchesAt (some prev) s (t0 :: ts) = true →
        isWordChar prev = false) ∧
    (∀ (prev : Option Char) (s term : List Char) (a c : Char),
        term.getLast? = some a → isWordChar a = true → termMatchesAt prev s term = true →
        (List.drop term.length s).head? = some c → isWordChar c = false) ∧
    c6Mgr.preprocess_text "category theory" "zoo" "twi" =
      Except.ok ("category theory", []) := by
  refine ⟨?_, ?_, by decide⟩
  · intro prev s t0 ts ht hm
    simp only [termMatchesAt, Bool.and_eq_true] at hm
    obtain ⟨⟨⟨hne, hci⟩, hb⟩, hb2⟩ := hm
    obtain ⟨s0, ss, hs, hcie⟩ := ciStarts_head t0 ts s hci
    subst hs
    have hw : isWordChar s0 = isWordChar t0 := (ciEq_word t0 s0 hcie).symm
    simp only [List.head?_cons, boundaryB, wordOpt, bne_iff_ne, ne_eq] at hb
    rw [hw, ht] at hb
    cases hp : isWordChar prev with
    | false => rfl
    | true => exact absurd hp (by simpa using hb)
  · intro prev s term a c hlast ha hm hdrop
    simp only [termMatchesAt, Bool.and_eq_true] at hm
    obtain ⟨⟨⟨hne2, hci⟩, hb⟩, hb2⟩ := hm
    have hne : term ≠ [] := by
      cases term with
      | nil => simp at hne2
      | cons x xs => simp
    obtain ⟨a2, c2, ha2, hc2, hac⟩ := ciStarts_getLast term s hne hci
    rw [hlast] at ha2
    have haa : a2 = a := Option.some.inj ha2.symm
    subst haa
    rw [hc2, hdrop] at hb2
    have hwc : isWordChar c2 = true := by
      rw [← ciEq_word a2 c2 hac]
      exact ha
    simp only [boundaryB, wordOpt, bne_iff_ne, ne_eq] at hb2
    rw [hwc] at hb2
    cases hp : isWordChar c with
    | false => rfl
    | true => exact absurd hp (by simpa using hb2)

/-- C6 witness: both boundary statements instantiated at concrete matches of
the term cat. -/
theorem C6_word_boundary_witness :
    isWordChar ' ' = false ∧ isWordChar '.' = false :=
  ⟨C6_word_boundary.1 ' ' "cat".data 'c' ['a', 't'] (by decide) (by decide),
   C6_word_boundary.2.1 none "cat.".data "cat".data 't' '.' (by decide) (by decide) (by decide)
     (by decide)⟩

/-- C7: for every catalog, pair with a non-empty table, and text on which no
term substitution pass finds a match, preprocess followed by postprocess (the
external translation step being the identity) returns the original text. -/
theorem C7_roundtrip (m : TerminologyManager) (text d l : String) (table : List Term)
    (hget : (m.get_terms_for_domain_lang d l).1 = table) (hne : table ≠ [])
    (hno : ∀ t ∈ table, (runSub t.term.data (phChars t.id) text.data).2 = false) :
    (m.preprocess_text text d l).map (fun pr => postprocess_text pr.1 pr.2) =
      Except.ok text := by
  have hempty : table.isEmpty = false := by
    cases table with
    | nil => exact absurd rfl hne
    | cons a b => rfl
  have hfold : (sortLenDesc table).foldl passStep (text.data, []) = (text.data, []) := by
    apply pass_fold_no_hit
    intro t ht
    exact hno t ((mem_sortLenDesc t table).mp ht)
  simp only [TerminologyManager.preprocess_text, hget, hempty, Bool.false_eq_true, if_false,
    Except.map, runPasses, hfold, postprocess_text]
  rfl

/-- C7 witness: the round trip evaluated on a catalog holding cocoa and a text
containing no occurrence of it. -/
theorem C7_roundtrip_witness :
    (c7Mgr.preprocess_text "hello world" "agric" "twi").map
        (fun pr => postprocess_text pr.1 pr.2) = Except.ok "hello world" :=
  C7_roundtrip c7Mgr "hello world" "agric" "twi" [c7CocoaTerm] (by decide) (by decide) (by decide)

/-- C8: when the (domain, dest) pair is not among the available pairs, the
orchestrating translate fails with the unsupported-pair ValueError whose
message lists the currently available pairs, the external capability receives
no call, and that message differs from the no-terminology error raised by
preprocessing. -/
theorem C8_unsupported (m : TerminologyManager) (g : String → String) (text src dest d : String)
    (h : (d, dest) ∉ m.get_available_domains_languages) :
    Translator.translate m g text src dest (some d) =
      (Except.error (unsupportedMsg d dest m), []) ∧
    unsupportedMsg d dest m ≠ noTermMsg d dest := by
  constructor
  · simp [Translator.translate, TCTranslator.mkCheck, h]
  · intro heq
    have h1 : (unsupportedMsg d dest m).data.head? = some 'D' := by
      show (("Domain \x27" ++ d ++ "\x27 with language \x27" ++ dest ++ "\x27 not found. " ++
        "Available: " ++ reprPairs m.get_available_domains_languages)).data.head? = some 'D'
      simp [String.data_append]
    have h2 : (noTermMsg d dest).data.head? = some 'N' := by
      simp [noTermMsg, String.data_append]
    rw [heq, h2] at h1
    simp at h1

/-- C8 witness: the unsupported pair (agric, fr) on a catalog offering only
(agric, twi). -/
theorem C8_unsupported_witness :
    Translator.translate c8Mgr (fun s => s) "hello" "en" "fr" (some "agric") =
      (Except.error (unsupportedMsg "agric" "fr" c8Mgr), []) ∧
    unsupportedMsg "agric" "fr" c8Mgr ≠ noTermMsg "agric" "fr" :=
  C8_unsupported c8Mgr (fun s => s) "hello" "en" "fr" "agric" (by decide)

/-- C9 counterexample: loading a row whose translation cell is " kookoo "
stores the translation with its surrounding whitespace intact (while the term
cell " Cocoa " is case-folded and trimmed to cocoa), contradicting the claim
that the translation field is trimmed on load. -/
theorem C9_counterexample :
    loadTerminologies [c9File] =
      Except.ok { terms_by_domain_lang :=
                    [(("agric", "twi"),
                      [{ id := 7, term := "cocoa", translation := " kookoo ",
                         domain := "agric", language := "twi" }])],
                  domains_languages := [("agric", "twi")] } ∧
    (" kookoo " : String) ≠ pyStrip " kookoo " := by
  decide

/-- C9 amended: every Term built by the TerminologyManager row loader has its
term field equal to the source cell case-folded then trimmed, and its
translation field equal to the source cell verbatim — case preserved and
surrounding whitespace preserved (not trimmed). -/
theorem C9_amended (domain language : String) (row : List (String × String)) (t : Term)
    (h : buildTerm domain language row = Except.ok t) :
    (∃ cell, List.lookup "term" row = some cell ∧ t.term = pyStrip (pyLower cell)) ∧
    (∃ cell, List.lookup "translation" row = some cell ∧ t.translation = cell) := by
  unfold buildTerm cellGet at h
  cases h1 : List.lookup "id" row with
  | none => rw [h1] at h; simp at h
  | some idc =>
    rw [h1] at h
    simp only at h
    cases h2 : parseIntCell idc with
    | error e => rw [h2] at h; simp at h
    | ok idv =>
      rw [h2] at h
      cases h3 : List.lookup "term" row with
      | none => rw [h3] at h; simp at h
      | some tc =>
        rw [h3] at h
        simp only at h
        cases h4 : List.lookup "translation" row with
        | none => rw [h4] at h; simp at h
        | some trc =>
          rw [h4] at h
          simp only at h
          simp at h
          refine ⟨⟨tc, rfl, ?_⟩, ⟨trc, rfl, ?_⟩⟩ <;> rw [← h]

/-- C9 witness: the amended statement evaluated on the concrete row of the
counterexample file. -/
theorem C9_amended_witness :
    (∃ cell, List.lookup "term" [("id", "7"), ("term", " Cocoa "), ("translation", " kookoo ")]
        = some cell ∧
      ({ id := 7, term := "cocoa", translation := " kookoo ", domain := "agric",
         language := "twi" } : Term).term = pyStrip (pyLower cell)) ∧
    (∃ cell, List.lookup "translation"
          [("id", "7"), ("term", " Cocoa "), ("translation", " kookoo ")] = some cell ∧
      ({ id := 7, term := "cocoa", translation := " kookoo ", domain := "agric",
         language := "twi" } : Term).translation = cell) :=
  C9_amended "agric" "twi" [("id", "7"), ("term", " Cocoa "), ("translation", " kookoo ")]
    { id := 7, term := "cocoa", translation := " kookoo ", domain := "agric", language := "twi" }
    (by decide)

/-- C10: querying the term getter for a pair absent from the catalog returns
an empty table and leaves the manager unchanged — in particular the available
pairs, domains and languages are identical before and after the query (the
getter uses dict.get, which never inserts even on a defaultdict). -/
theorem C10_frame (m : TerminologyManager) (d l : String)
    (h : List.lookup (d, l) m.terms_by_domain_lang = none) :
    (m.get_terms_for_domain_lang d l).1 = [] ∧
    (m.get_terms_for_domain_lang d l).2 = m ∧
    ((m.get_terms_for_domain_lang d l).2).get_available_domains_languages =
      m.get_available_domains_languages ∧
    ((m.get_terms_for_domain_lang d l).2).get_domains = m.get_domains ∧
    ((m.get_terms_for_domain_lang d l).2).get_languages = m.get_languages := by
  simp [TerminologyManager.get_terms_for_domain_lang, h]

/-- C10 witness: the frame statement evaluated on a catalog without the pair
(agric, fr). -/
theorem C10_frame_witness :
    (c10Mgr.get_terms_for_domain_lang "agric" "fr").1 = [] ∧
    (c10Mgr.get_terms_for_domain_lang "agric" "fr").2 = c10Mgr ∧
    ((c10Mgr.get_terms_for_domain_lang "agric" "fr").2).get_available_domains_languages =
      c10Mgr.get_available_domains_languages ∧
    ((c10Mgr.get_terms_for_domain_lang "agric" "fr").2).get_domains = c10Mgr.get_domains ∧
    ((c10Mgr.get_terms_for_domain_lang "agric" "fr").2).get_languages = c10Mgr.get_languages :=
  C10_frame c10Mgr "agric" "fr" (by decide)
